import Mathlib

/-!
Verification of the nREPL protocol transport (`src/nrepl.rs`) of this
repository: operation-request encoding, response decoding, the terminal
response detection and the read loop of `NreplStream::op`, and the error
taxonomy.

Modelling conventions:
* Rust `String` / `&str` values are Lean `String`s; where Rust compares
  strings as UTF-8 byte sequences we compare the codepoint sequences
  (`codes`), which yields the identical order because UTF-8 byte order
  coincides with codepoint order.
* Machine side effects (TCP reads and writes, the external `bendy` encoder
  and the `bencode` decoder collaborator) are passed in explicitly as
  values describing the outcome of each call, exactly in the places the
  source performs them.
* A Rust `HashMap` built by insert-if-absent is modelled as an association
  list extended only at absent keys.
-/

namespace Bencode

/-- Modelled from the spec: the collaborator codec's decoded-value union
(`bencode::Object`, whose module is not part of the shown core): a tagged
union over byte-string, integer, list and dict, with dict keys being raw
byte strings.  The constructor names `BBytes` and `Dict` appear in the
shown source. -/
inductive Object where
  | BBytes (bs : List Nat)
  | BInt (n : Int)
  | BList (os : List Object)
  | Dict (pairs : List (List Nat × Object))

/-- Is the decoded value a dict? -/
def Object.isDict : Object → Bool
  | .Dict _ => true
  | _ => false

end Bencode

namespace Nrepl

/-- Codepoint sequence of a string; for valid UTF-8 the induced
lexicographic order is exactly Rust's byte-lexicographic `&str` order. -/
def codes (s : String) : List Nat :=
  s.data.map Char.toNat

/-- Lexicographic strict order on codepoint/byte sequences. -/
def natLt : List Nat → List Nat → Bool
  | [], [] => false
  | [], _ :: _ => true
  | _ :: _, [] => false
  | a :: as, b :: bs =>
    if a < b then true
    else if b < a then false
    else natLt as bs

/-- Lexicographic non-strict order on codepoint/byte sequences. -/
def natLe : List Nat → List Nat → Bool
  | [], _ => true
  | _ :: _, [] => false
  | a :: as, b :: bs =>
    if a < b then true
    else if b < a then false
    else natLe as bs

/-- UTF-8 encoding of one codepoint (the byte sequence Rust's `str`
stores for it). -/
def encodeChar (n : Nat) : List Nat :=
  if n < 0x80 then [n]
  else if n < 0x800 then
    [0xC0 + n / 0x40, 0x80 + n % 0x40]
  else if n < 0x10000 then
    [0xE0 + n / 0x1000, 0x80 + n / 0x40 % 0x40, 0x80 + n % 0x40]
  else
    [0xF0 + n / 0x40000, 0x80 + n / 0x1000 % 0x40, 0x80 + n / 0x40 % 0x40, 0x80 + n % 0x40]

/-- UTF-8 bytes of a Rust string. -/
def strBytes (s : String) : List Nat :=
  s.data.foldr (fun c acc => encodeChar c.toNat ++ acc) []

/-- The outbound operation request of `nrepl.rs`: an operation name plus
named string arguments, kept as the supplied list of pairs
(`args: Vec<(String, String)>`). -/
structure Op where
  name : String
  args : List (String × String)

/-- Rust's derived `Ord` on `(&str, &str)` pairs as a Boolean `≤`:
compare the first components byte-lexicographically, break ties on the
second.  (When the first components differ, `≤` and `<` agree, so the
tie-breaking shape below is the tuple order.) -/
def pairLe (p q : String × String) : Bool :=
  if codes p.1 == codes q.1 then natLe (codes p.2) (codes q.2)
  else natLe (codes p.1) (codes q.1)

/-- `pairLe` as a decidable relation, for the sorting machinery. -/
def pairR (p q : String × String) : Prop :=
  pairLe p q = true

instance : DecidableRel pairR := fun p q =>
  inferInstanceAs (Decidable (pairLe p q = true))

/-- The pair list built and sorted by `impl ToBencode for Op`:
`("op", name)` first, then all argument pairs, sorted by the pair order.
Rust's `sort` is a stable sort, and the pair order is total and
antisymmetric, so its output is the canonical sorted arrangement;
insertion sort computes the same list. -/
def opPairs (o : Op) : List (String × String) :=
  List.insertionSort pairR (("op", o.name) :: o.args)

/-- Modelled from the spec: ASCII decimal digits of a length prefix of the
bencode byte-string framing (bencode strings carry explicit byte counts). -/
def lenBytes (n : Nat) : List Nat :=
  (Nat.toDigits 10 n).map Char.toNat

/-- Modelled from the spec: bencode framing of one byte string,
`<decimal length>:<bytes>`. -/
def encStrBytes (bs : List Nat) : List Nat :=
  lenBytes bs.length ++ 58 :: bs

/-- The canonical wire encoding emitted by `impl ToBencode for Op`:
a bencode dict (`d` ... `e`) of the sorted pairs, each key and value a
bencode byte string. -/
def encodeOp (o : Op) : List Nat :=
  100 :: (opPairs o).foldr
    (fun p acc => encStrBytes (strBytes p.1) ++ encStrBytes (strBytes p.2) ++ acc) [101]

/-- The error taxonomy `nrepl::Error`.  Payloads of external error types
(`bendy` encode errors, `bencode::Error`, `std::io::Error`) are opaque and
modelled as numeric tokens; `BadBencodeString` carries the offending key
bytes, `DuplicatedKeyError` the duplicated key. -/
inductive Error where
  | ConnectionLost
  | BencodeEncodeError (e : Nat)
  | BencodeDecodeError (e : Nat)
  | UnexpectedBencodeObject (o : Bencode.Object)
  | IOError (e : Nat)
  | BadBencodeString (bs : List Nat)
  | DuplicatedKeyError (k : String)

/-- Is the error the `ConnectionLost` variant? -/
def Error.isConnectionLost : Error → Bool
  | .ConnectionLost => true
  | _ => false

/-- Is the error the `IOError` variant? -/
def Error.isIOVariant : Error → Bool
  | .IOError _ => true
  | _ => false

/-- One decoded inbound message (`type Resp = HashMap<String, Object>`),
as an association list extended only at absent keys. -/
abbrev Resp := List (String × Bencode.Object)

/-- `HashMap::contains_key` on the association-list model. -/
def containsKey (r : Resp) (k : String) : Bool :=
  r.any (fun p => p.1 == k)

/-- `is_final_resp`: a response is terminal iff it contains the key
`"status"`. -/
def is_final_resp (resp : Resp) : Bool :=
  containsKey resp "status"

/-- Is the byte a UTF-8 continuation byte? -/
def isCont (b : Nat) : Bool :=
  0x80 ≤ b && b ≤ 0xBF

/-- Strict UTF-8 decoding of a byte sequence, as performed by Rust's
`String::from_utf8`: rejects truncated sequences, overlong encodings,
surrogate codepoints and codepoints above `U+10FFFF`. -/
def utf8DecodeChars : List Nat → Option (List Char)
  | [] => some []
  | b :: rest =>
    if b ≤ 0x7F then
      match utf8DecodeChars rest with
      | some cs => some (Char.ofNat b :: cs)
      | none => none
    else if 0xC2 ≤ b && b ≤ 0xDF then
      match rest with
      | b1 :: rest1 =>
        if isCont b1 then
          match utf8DecodeChars rest1 with
          | some cs => some (Char.ofNat ((b - 0xC0) * 0x40 + (b1 - 0x80)) :: cs)
          | none => none
        else none
      | [] => none
    else if 0xE0 ≤ b && b ≤ 0xEF then
      match rest with
      | b1 :: b2 :: rest2 =>
        if ((b == 0xE0 && (0xA0 ≤ b1 && b1 ≤ 0xBF)) ||
            ((0xE1 ≤ b && b ≤ 0xEC) && isCont b1) ||
            (b == 0xED && (0x80 ≤ b1 && b1 ≤ 0x9F)) ||
            ((0xEE ≤ b && b ≤ 0xEF) && isCont b1)) && isCont b2 then
          match utf8DecodeChars rest2 with
          | some cs =>
            some (Char.ofNat ((b - 0xE0) * 0x1000 + (b1 - 0x80) * 0x40 + (b2 - 0x80)) :: cs)
          | none => none
        else none
      | _ => none
    else if 0xF0 ≤ b && b ≤ 0xF4 then
      match rest with
      | b1 :: b2 :: b3 :: rest3 =>
        if ((b == 0xF0 && (0x90 ≤ b1 && b1 ≤ 0xBF)) ||
            ((0xF1 ≤ b && b ≤ 0xF3) && isCont b1) ||
            (b == 0xF4 && (0x80 ≤ b1 && b1 ≤ 0x8F))) && isCont b2 && isCont b3 then
          match utf8DecodeChars rest3 with
          | some cs =>
            some (Char.ofNat
              ((b - 0xF0) * 0x40000 + (b1 - 0x80) * 0x1000 + (b2 - 0x80) * 0x40 + (b3 - 0x80)) :: cs)
          | none => none
        else none
      | _ => none
    else none

/-- `String::from_utf8` on a dict key's bytes. -/
def utf8Decode? (bs : List Nat) : Option String :=
  (utf8DecodeChars bs).map (fun cs => String.mk cs)

/-- The dict-decoding loop of `read_resp`: decode each key as UTF-8
(failing with `BadBencodeString`), reject a key already present
(`DuplicatedKeyError`), otherwise insert. -/
def decodePairs : List (List Nat × Bencode.Object) → Resp → Except Error Resp
  | [], acc => .ok acc
  | (k, v) :: rest, acc =>
    match utf8Decode? k with
    | none => .error (.BadBencodeString k)
    | some kStr =>
      if containsKey acc kStr then .error (.DuplicatedKeyError kStr)
      else decodePairs rest (acc ++ [(kStr, v)])

/-- Modelled from the spec: the outcome of one `decoder.read_object()`
call of the collaborator decoder — a decode error, a clean end of stream
(`Ok(None)`), or one complete decoded value. -/
abbrev ReadResult := Except Nat (Option Bencode.Object)

/-- What one `read_resp` call does: either it panics (the `expect` on a
clean end of stream) or it returns a `Result`. -/
inductive ReadOutcome where
  | panics
  | result (r : Except Error Resp)

/-- `NreplStream::read_resp` over the outcome of the decoder call. -/
def read_resp (r : ReadResult) : ReadOutcome :=
  match r with
  | .ok none => .panics
  | .ok (some (.Dict pairs)) => .result (decodePairs pairs [])
  | .ok (some o) => .result (.error (.UnexpectedBencodeObject o))
  | .error e => .result (.error (.BencodeDecodeError e))

/-- Result of the read loop of `NreplStream::op`: the aggregated response
sequence, an error, a panic, or exhaustion of the modelled read outcomes
before the loop finished. -/
inductive OpOutcome where
  | ok (resps : List Resp)
  | err (e : Error)
  | panics
  | needsMoreInput

/-- Is the outcome an `IOError`? -/
def OpOutcome.isIOVariant : OpOutcome → Bool
  | .err e => e.isIOVariant
  | _ => false

/-- Is the outcome a `ConnectionLost` error? -/
def OpOutcome.isConnectionLost : OpOutcome → Bool
  | .err e => e.isConnectionLost
  | _ => false

/-- The read loop of `NreplStream::op`, fed the successive outcomes of
the decoder calls; also counts the reads performed. -/
def opLoop : List ReadResult → List Resp → OpOutcome × Nat
  | [], _ => (.needsMoreInput, 0)
  | rr :: rest, acc =>
    match read_resp rr with
    | .panics => (.panics, 1)
    | .result (.error e) => (.err e, 1)
    | .result (.ok resp) =>
      if is_final_resp resp then (.ok (acc ++ [resp]), 1)
      else ((opLoop rest (acc ++ [resp])).1, (opLoop rest (acc ++ [resp])).2 + 1)

/-- `NreplStream::send_op` over the outcome of the `to_bencode` call and
of the socket write: an encode failure is surfaced before the write is
attempted; a write failure is an `IOError`; on success the encoded bytes
were handed to the socket. -/
def send_op (enc : Except Nat (List Nat)) (wr : Except Nat Unit) :
    Except Error (List Nat) :=
  match enc with
  | .error e => .error (.BencodeEncodeError e)
  | .ok bytes =>
    match wr with
    | .error e => .error (.IOError e)
    | .ok _ => .ok bytes

/-- The bytes handed to the socket write call: none when encoding failed
(the write is never reached), otherwise the encoded bytes. -/
def writeAttempt (enc : Except Nat (List Nat)) : Option (List Nat) :=
  match enc with
  | .error _ => none
  | .ok bytes => some bytes

/-- One complete `NreplStream::op` call: outcome, bytes handed to the
socket write, and number of reads performed. -/
structure OpRun where
  outcome : OpOutcome
  written : Option (List Nat)
  readsUsed : Nat

/-- `NreplStream::op`: send the encoded request, then loop reading
responses until a terminal one. -/
def op (enc : Except Nat (List Nat)) (wr : Except Nat Unit)
    (reads : List ReadResult) : OpRun :=
  match send_op enc wr with
  | .error e => ⟨.err e, writeAttempt enc, 0⟩
  | .ok _ => ⟨(opLoop reads []).1, writeAttempt enc, (opLoop reads []).2⟩

/-- `NreplStream::connect_timeout` error path: every failure of the TCP
connect or of the socket-option calls is surfaced as `IOError`. -/
def connect_timeout (tcp : Except Nat Unit) : Except Error Unit :=
  match tcp with
  | .error e => .error (.IOError e)
  | .ok _ => .ok ()

/-- Is the connect result a `ConnectionLost` error? -/
def connIsConnectionLost : Except Error Unit → Bool
  | .error e => e.isConnectionLost
  | _ => false

/-- Concrete reads exercising the loop: one progress message `{"x": 1}`
then one terminal message `{"status": "done"}` (keys in raw bytes). -/
def sampleReads : List ReadResult :=
  [.ok (some (.Dict [([120], .BInt 1)])),
   .ok (some (.Dict [([115, 116, 97, 116, 117, 115],
     .BBytes [100, 111, 110, 101])]))]

/-- The decoded responses of `sampleReads`, in arrival order. -/
def sampleResps : List Resp :=
  [[("x", .BInt 1)], [("status", .BBytes [100, 111, 110, 101])]]

/-- A concrete read of one terminal message `{"status": ""}`. -/
def statusRead : ReadResult :=
  .ok (some (.Dict [([115, 116, 97, 116, 117, 115], .BBytes [])]))

/-- The decoded response of `statusRead`. -/
def statusResp : Resp :=
  [("status", .BBytes [])]

/-! ### Properties of the byte-lexicographic order -/

theorem natLe_total : ∀ (a b : List Nat), natLe a b = true ∨ natLe b a = true
  | [], _ => Or.inl rfl
  | _ :: _, [] => Or.inr rfl
  | a :: as, b :: bs => by
    rcases Nat.lt_trichotomy a b with h | h | h
    · left; simp [natLe, h]
    · subst h
      rcases natLe_total as bs with h' | h'
      · left; simpa [natLe] using h'
      · right; simpa [natLe] using h'
    · right; simp [natLe, h, Nat.lt_asymm h]

theorem natLe_trans : ∀ (a b c : List Nat),
    natLe a b = true → natLe b c = true → natLe a c = true := by
  intro a
  induction a with
  | nil => intro b c _ _; rfl
  | cons x xs ih =>
    intro b c hab hbc
    cases b with
    | nil => simp [natLe] at hab
    | cons y ys =>
      cases c with
      | nil => simp [natLe] at hbc
      | cons z zs =>
        simp only [natLe] at hab hbc ⊢
        by_cases hxy : x < y
        · by_cases hyz : y < z
          · simp [show x < z by omega]
          · by_cases hzy : z < y
            · simp [hyz, hzy] at hbc
            · simp [show x < z by omega]
        · by_cases hyx : y < x
          · simp [hxy, hyx] at hab
          · have hxy' : x = y := by omega
            subst hxy'
            simp [Nat.lt_irrefl] at hab
            by_cases hyz : x < z
            · simp [hyz]
            · by_cases hzy : z < x
              · simp [hyz, hzy] at hbc
              · have : x = z := by omega
                subst this
                simp [Nat.lt_irrefl] at hbc ⊢
                exact ih ys zs hab hbc

theorem natLe_antisymm : ∀ (a b : List Nat),
    natLe a b = true → natLe b a = true → a = b := by
  intro a
  induction a with
  | nil =>
    intro b _ hba
    cases b with
    | nil => rfl
    | cons y ys => simp [natLe] at hba
  | cons x xs ih =>
    intro b hab hba
    cases b with
    | nil => simp [natLe] at hab
    | cons y ys =>
      simp only [natLe] at hab hba
      by_cases hxy : x < y
      · simp [hxy, Nat.lt_asymm hxy] at hba
      · by_cases hyx : y < x
        · simp [hxy, hyx] at hab
        · have hxy' : x = y := by omega
          subst hxy'
          simp [Nat.lt_irrefl] at hab hba
          rw [ih ys hab hba]

theorem natLt_of_natLe_of_ne : ∀ (a b : List Nat),
    natLe a b = true → a ≠ b → natLt a b = true := by
  intro a
  induction a with
  | nil =>
    intro b _ hne
    cases b with
    | nil => exact absurd rfl hne
    | cons y ys => rfl
  | cons x xs ih =>
    intro b hle hne
    cases b with
    | nil => simp [natLe] at hle
    | cons y ys =>
      simp only [natLe] at hle
      simp only [natLt]
      by_cases hxy : x < y
      · simp [hxy]
      · by_cases hyx : y < x
        · simp [hxy, hyx] at hle
        · have hxy' : x = y := by omega
          subst hxy'
          simp [Nat.lt_irrefl] at hle ⊢
          exact ih ys hle (fun h => hne (by rw [h]))

theorem codes_inj {s t : String} (h : codes s = codes t) : s = t := by
  apply String.ext
  have hinj : Function.Injective Char.toNat := fun a b hab => Char.ext (UInt32.ext hab)
  exact List.map_injective_iff.mpr hinj h

theorem pairLe_total (p q : String × String) : pairLe p q = true ∨ pairLe q p = true := by
  unfold pairLe
  by_cases h : codes p.1 = codes q.1
  · rw [if_pos (by simpa using h), if_pos (by simpa using h.symm)]
    exact natLe_total _ _
  · rw [if_neg (by simpa using h), if_neg (by simpa using fun hh => h hh.symm)]
    exact natLe_total _ _

theorem pairLe_trans (p q r : String × String)
    (hpq : pairLe p q = true) (hqr : pairLe q r = true) : pairLe p r = true := by
  unfold pairLe at hpq hqr ⊢
  by_cases h1 : codes p.1 = codes q.1
  · rw [if_pos (by simpa using h1)] at hpq
    by_cases h2 : codes q.1 = codes r.1
    · rw [if_pos (by simpa using h2)] at hqr
      rw [if_pos (by simpa using h1.trans h2)]
      exact natLe_trans _ _ _ hpq hqr
    · rw [if_neg (by simpa using h2)] at hqr
      have h3 : codes p.1 ≠ codes r.1 := fun hc => h2 (h1.symm.trans hc)
      rw [if_neg (by simpa using h3), h1]
      exact hqr
  · rw [if_neg (by simpa using h1)] at hpq
    by_cases h2 : codes q.1 = codes r.1
    · rw [if_pos (by simpa using h2)] at hqr
      have h3 : codes p.1 ≠ codes r.1 := fun hc => h1 (hc.trans h2.symm)
      rw [if_neg (by simpa using h3)]
      exact h2 ▸ hpq
    · rw [if_neg (by simpa using h2)] at hqr
      have h3 : codes p.1 ≠ codes r.1 := by
        intro hc
        exact h1 (natLe_antisymm _ _ hpq (hc ▸ hqr))
      rw [if_neg (by simpa using h3)]
      exact natLe_trans _ _ _ hpq hqr

theorem pairLe_antisymm (p q : String × String)
    (hpq : pairLe p q = true) (hqp : pairLe q p = true) : p = q := by
  unfold pairLe at hpq hqp
  by_cases h : codes p.1 = codes q.1
  · rw [if_pos (by simpa using h)] at hpq
    rw [if_pos (by simpa using h.symm)] at hqp
    have h2 : codes p.2 = codes q.2 := natLe_antisymm _ _ hpq hqp
    exact Prod.ext (codes_inj h) (codes_inj h2)
  · rw [if_neg (by simpa using h)] at hpq
    rw [if_neg (by simpa using fun hh => h hh.symm)] at hqp
    exact absurd (natLe_antisymm _ _ hpq hqp) h

instance : IsTotal (String × String) pairR :=
  ⟨fun p q => pairLe_total p q⟩

instance : IsTrans (String × String) pairR :=
  ⟨fun p q r => pairLe_trans p q r⟩

instance : IsAntisymm (String × String) pairR :=
  ⟨fun p q => pairLe_antisymm p q⟩

theorem opPairs_perm (o : Op) : (opPairs o).Perm (("op", o.name) :: o.args) :=
  List.perm_insertionSort pairR _

theorem opPairs_sorted (o : Op) : (opPairs o).Pairwise pairR :=
  List.sorted_insertionSort pairR _

/-! ### Properties of the read loop -/

theorem opLoop_ok_spec : ∀ (reads : List ReadResult) (acc rs : List Resp),
    (opLoop reads acc).1 = .ok rs →
    ∃ new, rs = acc ++ new ∧ new ≠ [] ∧ (opLoop reads acc).2 = new.length ∧
      (reads.take new.length).map read_resp
        = new.map (fun r => ReadOutcome.result (.ok r)) ∧
      ∃ front lastr, new = front ++ [lastr] ∧
        (∀ r ∈ front, is_final_resp r = false) ∧ is_final_resp lastr = true := by
  intro reads
  induction reads with
  | nil => intro acc rs h; simp [opLoop] at h
  | cons rr rest ih =>
    intro acc rs h
    rcases hrr : read_resp rr with _ | r
    · simp [opLoop, hrr] at h
    · cases r with
      | error e => simp [opLoop, hrr] at h
      | ok resp =>
        by_cases hfin : is_final_resp resp = true
        · simp only [opLoop, hrr, hfin, if_true] at h
          have hrs : rs = acc ++ [resp] := by
            cases h
            rfl
          refine ⟨[resp], hrs, by simp, ?_, ?_, [], resp, by simp, by simp, hfin⟩
          · simp [opLoop, hrr, hfin]
          · simp [hrr]
        · have hfin' : is_final_resp resp = false := by simpa using hfin
          simp only [opLoop, hrr, hfin', Bool.false_eq_true, if_false] at h
          obtain ⟨new', hrs, hne, hsnd, htake, front', lastr, hsplit, hfront, hlast⟩ :=
            ih (acc ++ [resp]) rs h
          refine ⟨resp :: new', by simpa [List.append_assoc] using hrs,
            by simp, ?_, ?_, resp :: front', lastr, by simp [hsplit], ?_, hlast⟩
          · simp [opLoop, hrr, hfin', hsnd]
          · simp only [List.length_cons, List.take_succ_cons, List.map_cons, hrr, htake]
          · intro r hr
            rcases List.mem_cons.mp hr with hr | hr
            · exact hr ▸ hfin'
            · exact hfront r hr

theorem opLoop_cons_snd_pos (rr : ReadResult) (rest : List ReadResult) (acc : List Resp) :
    1 ≤ (opLoop (rr :: rest) acc).2 := by
  rcases hrr : read_resp rr with _ | r
  · simp [opLoop, hrr]
  · cases r with
    | error e => simp [opLoop, hrr]
    | ok resp =>
      by_cases hfin : is_final_resp resp = true
      · simp [opLoop, hrr, hfin]
      · have hfin' : is_final_resp resp = false := by simpa using hfin
        simp [opLoop, hrr, hfin']

/-! ### The transport never produces `ConnectionLost` -/

theorem decodePairs_error_not_connectionLost :
    ∀ (pairs : List (List Nat × Bencode.Object)) (acc : Resp) (e : Error),
    decodePairs pairs acc = .error e → e.isConnectionLost = false := by
  intro pairs
  induction pairs with
  | nil => intro acc e h; simp [decodePairs] at h
  | cons p rest ih =>
    intro acc e h
    obtain ⟨k, v⟩ := p
    simp only [decodePairs] at h
    split at h
    · cases h; rfl
    · split at h
      · cases h; rfl
      · exact ih _ _ h

theorem read_resp_error_not_connectionLost (rr : ReadResult) (e : Error)
    (h : read_resp rr = .result (.error e)) : e.isConnectionLost = false := by
  cases rr with
  | error d =>
    simp only [read_resp] at h
    cases h
    rfl
  | ok o =>
    cases o with
    | none => simp [read_resp] at h
    | some obj =>
      cases obj with
      | Dict pairs =>
        simp only [read_resp] at h
        injection h with h'
        exact decodePairs_error_not_connectionLost pairs [] e h'
      | BBytes bs => cases h; rfl
      | BInt n => cases h; rfl
      | BList os => cases h; rfl

theorem opLoop_not_connectionLost : ∀ (reads : List ReadResult) (acc : List Resp),
    (opLoop reads acc).1.isConnectionLost = false := by
  intro reads
  induction reads with
  | nil => intro acc; rfl
  | cons rr rest ih =>
    intro acc
    rcases hrr : read_resp rr with _ | r
    · simp [opLoop, hrr, OpOutcome.isConnectionLost]
    · cases r with
      | error e =>
        simp only [opLoop, hrr]
        exact read_resp_error_not_connectionLost rr e hrr
      | ok resp =>
        by_cases hfin : is_final_resp resp = true
        · simp [opLoop, hrr, hfin, OpOutcome.isConnectionLost]
        · have hfin' : is_final_resp resp = false := by simpa using hfin
          simp only [opLoop, hrr, hfin', Bool.false_eq_true, if_false]
          exact ih _

/-! ### The claims -/

/-- C1: for every successful `NreplStream::op` call, the returned response
sequence is non-empty, is exactly the sequence of decoded responses of the
reads performed, in arrival order; its last response is terminal and every
earlier one is non-terminal. -/
theorem op_response_sequence (enc : Except Nat (List Nat)) (wr : Except Nat Unit)
    (reads : List ReadResult) (rs : List Resp)
    (h : (op enc wr reads).outcome = .ok rs) :
    rs ≠ [] ∧
    (reads.take (op enc wr reads).readsUsed).map read_resp
      = rs.map (fun r => ReadOutcome.result (.ok r)) ∧
    ∃ front lastr, rs = front ++ [lastr] ∧
      (∀ r ∈ front, is_final_resp r = false) ∧ is_final_resp lastr = true := by
  cases enc with
  | error e => simp [op, send_op] at h
  | ok bytes =>
    cases wr with
    | error e => simp [op, send_op] at h
    | ok u =>
      cases u
      have h' : (opLoop reads []).1 = .ok rs := by simpa [op, send_op] using h
      obtain ⟨new, hrs, hne, hsnd, htake, hfl⟩ := opLoop_ok_spec reads [] rs h'
      simp only [List.nil_append] at hrs
      subst hrs
      refine ⟨hne, ?_, hfl⟩
      have hru : (op (.ok bytes) (.ok ()) reads).readsUsed = (opLoop reads []).2 := by
        simp [op, send_op]
      rw [hru, hsnd]
      exact htake

/-- C1 witness: a concrete run with one progress message and one terminal
message returns exactly those two responses, in order. -/
theorem op_response_sequence_witness :
    sampleResps ≠ [] ∧
    (sampleReads.take (op (.ok []) (.ok ()) sampleReads).readsUsed).map read_resp
      = sampleResps.map (fun r => ReadOutcome.result (.ok r)) ∧
    ∃ front lastr, sampleResps = front ++ [lastr] ∧
      (∀ r ∈ front, is_final_resp r = false) ∧ is_final_resp lastr = true :=
  op_response_sequence (.ok []) (.ok ()) sampleReads sampleResps (by rfl)

/-- C2: encoding an operation request is deterministic — the emitted bytes
do not depend on the order the arguments were supplied in — and (the
argument names being distinct from each other and from `"op"`, as the data
model requires of the argument mapping) the keys of the emitted dict are
strictly ascending in byte-lexicographic order. -/
theorem encode_deterministic_sorted (name : String) (args args' : List (String × String))
    (hperm : args.Perm args')
    (hnd : ("op" :: args.map Prod.fst).Nodup) :
    encodeOp ⟨name, args⟩ = encodeOp ⟨name, args'⟩ ∧
    ((opPairs ⟨name, args⟩).map Prod.fst).Pairwise
      (fun a b => natLt (codes a) (codes b) = true) := by
  constructor
  · have h1 : (opPairs ⟨name, args⟩).Perm (opPairs ⟨name, args'⟩) :=
      (opPairs_perm _).trans ((hperm.cons _).trans (opPairs_perm ⟨name, args'⟩).symm)
    have h2 : opPairs ⟨name, args⟩ = opPairs ⟨name, args'⟩ :=
      List.eq_of_perm_of_sorted h1 (opPairs_sorted _) (opPairs_sorted _)
    unfold encodeOp
    rw [h2]
  · have hk : ((opPairs ⟨name, args⟩).map Prod.fst).Perm ("op" :: args.map Prod.fst) := by
      simpa using (opPairs_perm ⟨name, args⟩).map Prod.fst
    have hnd' : ((opPairs ⟨name, args⟩).map Prod.fst).Nodup := hk.nodup_iff.mpr hnd
    have hndp : (opPairs ⟨name, args⟩).Pairwise (fun p q => p.1 ≠ q.1) :=
      List.pairwise_map.mp hnd'
    have hsorted : (opPairs ⟨name, args⟩).Pairwise pairR := opPairs_sorted _
    have hcomb := hsorted.and hndp
    rw [List.pairwise_map]
    refine hcomb.imp ?_
    rintro p q ⟨hle, hne⟩
    unfold pairR pairLe at hle
    by_cases h : codes p.1 = codes q.1
    · exact absurd (codes_inj h) hne
    · rw [if_neg (by simpa using h)] at hle
      exact natLt_of_natLe_of_ne _ _ hle (fun hc => h (by rw [hc]))

/-- C2 witness: the spec's example — args supplied as `b`, `a` with name
`"info"` encode identically to the swapped supply order, with keys emitted
in the order `a`, `b`, `op`. -/
theorem encode_deterministic_sorted_witness :
    encodeOp ⟨"info", [("b", "2"), ("a", "1")]⟩
      = encodeOp ⟨"info", [("a", "1"), ("b", "2")]⟩ ∧
    ((opPairs ⟨"info", [("b", "2"), ("a", "1")]⟩).map Prod.fst).Pairwise
      (fun a b => natLt (codes a) (codes b) = true) :=
  encode_deterministic_sorted "info" [("b", "2"), ("a", "1")] [("a", "1"), ("b", "2")]
    (List.Perm.swap ("a", "1") ("b", "2") []) (by decide)

/-- C3: a response is terminal iff it contains the key `"status"`,
whatever the associated value; and the read loop's continue/stop decision
after each successfully decoded response is exactly `is_final_resp`. -/
theorem is_final_resp_spec :
    (∀ r : Resp, is_final_resp r = true ↔ ∃ v, ("status", v) ∈ r) ∧
    (∀ (rr : ReadResult) (rest : List ReadResult) (acc : List Resp) (resp : Resp),
      read_resp rr = .result (.ok resp) →
      opLoop (rr :: rest) acc =
        if is_final_resp resp then (.ok (acc ++ [resp]), 1)
        else ((opLoop rest (acc ++ [resp])).1, (opLoop rest (acc ++ [resp])).2 + 1)) := by
  constructor
  · intro r
    unfold is_final_resp containsKey
    rw [List.any_eq_true]
    constructor
    · rintro ⟨⟨k, v⟩, hm, hk⟩
      have hk' : k = "status" := by simpa using hk
      subst hk'
      exact ⟨v, hm⟩
    · rintro ⟨v, hv⟩
      exact ⟨("status", v), hv, by simp⟩
  · intro rr rest acc resp hrr
    simp only [opLoop, hrr]

/-- C3 witness: the singleton response carrying `"status"` is terminal and
stops the loop at once. -/
theorem is_final_resp_spec_witness :
    (is_final_resp statusResp = true ↔ ∃ v, ("status", v) ∈ statusResp) ∧
    opLoop [statusRead] [] =
      (if is_final_resp statusResp then (.ok ([] ++ [statusResp]), 1)
       else ((opLoop [] ([] ++ [statusResp])).1, (opLoop [] ([] ++ [statusResp])).2 + 1)) :=
  ⟨is_final_resp_spec.1 statusResp,
   is_final_resp_spec.2 statusRead [] [] statusResp (by rfl)⟩

/-- C4 counterexample: a peer that stops sending before a terminal
response does not surface `ConnectionLost`: a failed read (the decoder's
report of a timed-out or dead socket) surfaces `BencodeDecodeError`, and a
clean end of stream panics. -/
theorem op_peer_stops_cex :
    (op (.ok []) (.ok ()) [.error 3]).outcome = .err (.BencodeDecodeError 3) ∧
    (op (.ok []) (.ok ()) [.error 3]).outcome.isConnectionLost = false ∧
    (op (.ok []) (.ok ()) [.ok none]).outcome = .panics :=
  ⟨rfl, rfl, rfl⟩

/-- C4 amended: if the peer stops sending before a terminal response,
`op()` does not return a short sequence: a read failure (including the
read timeout, which the collaborator decoder reports as its error)
surfaces as `BencodeDecodeError`, a clean end of stream panics, and no
outcome whatsoever is `ConnectionLost`. -/
theorem op_peer_stops_amended (e : Nat) (rest reads : List ReadResult) (acc : List Resp) :
    (opLoop (.error e :: rest) acc).1 = .err (.BencodeDecodeError e) ∧
    (opLoop (.ok none :: rest) acc).1 = .panics ∧
    (opLoop reads acc).1.isConnectionLost = false :=
  ⟨rfl, rfl, opLoop_not_connectionLost reads acc⟩

/-- C5 counterexample: duplicate argument names are not collapsed by the
encoder — `args` is a pair list, not a map — so supplying `a` twice emits
two dict entries with key `a`. -/
theorem encoded_key_multiset_cex :
    (opPairs ⟨"info", [("a", "1"), ("a", "2")]⟩).map Prod.fst = ["a", "a", "op"] ∧
    List.count "a" ((opPairs ⟨"info", [("a", "1"), ("a", "2")]⟩).map Prod.fst) = 2 :=
  ⟨by decide, by decide⟩

/-- C5 amended: the encoded dict's key list is, up to the sorted order,
exactly `"op"` followed by the supplied argument names with multiplicity
(duplicates yield multiple entries, none are overwritten), and the pair
`("op", name)` is always among the emitted pairs. -/
theorem encoded_key_multiset (name : String) (args : List (String × String)) :
    ((opPairs ⟨name, args⟩).map Prod.fst).Perm ("op" :: args.map Prod.fst) ∧
    ("op", name) ∈ opPairs ⟨name, args⟩ := by
  constructor
  · simpa using (opPairs_perm ⟨name, args⟩).map Prod.fst
  · exact (opPairs_perm ⟨name, args⟩).mem_iff.mpr (List.mem_cons_self _ _)

theorem decodePairs_dup_error :
    ∀ (pairs : List (List Nat × Bencode.Object)) (acc : Resp),
    (∀ p ∈ pairs, (utf8Decode? p.1).isSome = true) →
    (acc.map Prod.fst).Nodup →
    ¬ ((acc.map Prod.fst) ++ pairs.filterMap (fun p => utf8Decode? p.1)).Nodup →
    ∃ k, decodePairs pairs acc = .error (.DuplicatedKeyError k) := by
  intro pairs
  induction pairs with
  | nil =>
    intro acc _ hnd hdup
    simp only [List.filterMap_nil, List.append_nil] at hdup
    exact absurd hnd hdup
  | cons p rest ih =>
    intro acc hall hnd hdup
    obtain ⟨k, v⟩ := p
    have hk : (utf8Decode? k).isSome = true := hall (k, v) (List.mem_cons_self _ _)
    obtain ⟨kStr, hkStr⟩ := Option.isSome_iff_exists.mp hk
    have hstep : decodePairs ((k, v) :: rest) acc =
        if containsKey acc kStr then .error (.DuplicatedKeyError kStr)
        else decodePairs rest (acc ++ [(kStr, v)]) := by
      simp only [decodePairs, hkStr]
    by_cases hc : containsKey acc kStr = true
    · rw [hstep, if_pos hc]
      exact ⟨kStr, rfl⟩
    · rw [hstep, if_neg hc]
      have hknot : kStr ∉ acc.map Prod.fst := by
        intro hmem
        apply hc
        obtain ⟨⟨k', v'⟩, hmem', hfst⟩ := List.mem_map.mp hmem
        unfold containsKey
        rw [List.any_eq_true]
        exact ⟨(k', v'), hmem', by simpa using hfst⟩
      apply ih (acc ++ [(kStr, v)])
      · intro q hq
        exact hall q (List.mem_cons_of_mem _ hq)
      · rw [List.map_append]
        exact List.Nodup.append hnd (List.nodup_singleton _)
          (List.disjoint_singleton.mpr hknot)
      · intro hnew
        apply hdup
        have : ((k, v) :: rest).filterMap (fun p => utf8Decode? p.1)
            = kStr :: rest.filterMap (fun p => utf8Decode? p.1) := by
          simp [List.filterMap_cons, hkStr]
        rw [this]
        rw [List.map_append] at hnew
        simpa [List.append_assoc] using hnew

/-- C6: whenever a decoded dict repeats a key (all keys being valid UTF-8
text), `read_resp` fails with the duplicate-key error; it never silently
keeps the last value of a repeated key. -/
theorem read_resp_duplicate_key (pairs : List (List Nat × Bencode.Object))
    (hall : ∀ p ∈ pairs, (utf8Decode? p.1).isSome = true)
    (hdup : ¬ (pairs.filterMap (fun p => utf8Decode? p.1)).Nodup) :
    ∃ k, read_resp (.ok (some (.Dict pairs)))
      = .result (.error (.DuplicatedKeyError k)) := by
  obtain ⟨k, hk⟩ := decodePairs_dup_error pairs [] hall (by simp) (by simpa using hdup)
  exact ⟨k, by simp [read_resp, hk]⟩

/-- C6 witness: a dict carrying the key `"status"` twice is rejected with
the duplicate-key error. -/
theorem read_resp_duplicate_key_witness :
    ∃ k, read_resp (.ok (some (.Dict
      [([115, 116, 97, 116, 117, 115], Bencode.Object.BInt 0),
       ([115, 116, 97, 116, 117, 115], Bencode.Object.BInt 1)])))
      = .result (.error (.DuplicatedKeyError k)) :=
  read_resp_duplicate_key
    [([115, 116, 97, 116, 117, 115], Bencode.Object.BInt 0),
     ([115, 116, 97, 116, 117, 115], Bencode.Object.BInt 1)]
    (by decide) (by decide)

/-- C7: when encoding the operation request fails, the failure is surfaced
to the caller of `op()` before any byte is written — the socket write is
never reached and no read is performed. -/
theorem encode_failure_no_io (e : Nat) (wr : Except Nat Unit)
    (reads : List ReadResult) :
    op (.error e) wr reads
      = ⟨.err (.BencodeEncodeError e), none, 0⟩ ∧
    send_op (.error e) wr = .error (.BencodeEncodeError e) :=
  ⟨rfl, rfl⟩

/-- C8: when the top-level decoded value is not a dict, `read_resp` fails
with `UnexpectedBencodeObject` carrying that value, and the `op()` call
terminates with that error. -/
theorem read_resp_unexpected_object (o : Bencode.Object) (bytes : List Nat)
    (rest : List ReadResult) (h : o.isDict = false) :
    read_resp (.ok (some o)) = .result (.error (.UnexpectedBencodeObject o)) ∧
    (op (.ok bytes) (.ok ()) (.ok (some o) :: rest)).outcome
      = .err (.UnexpectedBencodeObject o) := by
  cases o with
  | Dict pairs => simp [Bencode.Object.isDict] at h
  | BBytes bs => exact ⟨rfl, rfl⟩
  | BInt n => exact ⟨rfl, rfl⟩
  | BList os => exact ⟨rfl, rfl⟩

/-- C8 witness: a top-level bencode integer is rejected as an unexpected
object and aborts the `op()` call. -/
theorem read_resp_unexpected_object_witness :
    read_resp (.ok (some (.BInt 42)))
      = .result (.error (.UnexpectedBencodeObject (.BInt 42))) ∧
    (op (.ok []) (.ok ()) [.ok (some (.BInt 42))]).outcome
      = .err (.UnexpectedBencodeObject (.BInt 42)) :=
  read_resp_unexpected_object (.BInt 42) [] [] rfl

/-- C9: a clean end of stream (the decoder returns successfully with no
object) makes `read_resp` panic through `expect` rather than return any
`Error` variant, so `op()` is not total over this input. -/
theorem read_resp_eof_panics (rest : List ReadResult) (acc : List Resp)
    (bytes : List Nat) :
    read_resp (.ok none) = .panics ∧
    (opLoop (.ok none :: rest) acc).1 = .panics ∧
    (op (.ok bytes) (.ok ()) (.ok none :: rest)).outcome = .panics :=
  ⟨rfl, rfl, rfl⟩

/-- C10 counterexample: a socket-read failure (reported by the decoder) is
surfaced as `BencodeDecodeError`, not as `IOError`. -/
theorem error_surfacing_cex :
    (op (.ok []) (.ok ()) [.error 7]).outcome = .err (.BencodeDecodeError 7) ∧
    (op (.ok []) (.ok ()) [.error 7]).outcome.isIOVariant = false :=
  ⟨rfl, rfl⟩

/-- C10 amended: no operation of the transport ever produces
`ConnectionLost`; connect and socket-write failures surface as `IOError`,
while read-side failures surface as `BencodeDecodeError` wrapping the
decoder's error. -/
theorem error_surfacing_amended (enc : Except Nat (List Nat)) (w tcp : Except Nat Unit)
    (reads : List ReadResult) (e : Nat) (bytes : List Nat) :
    (op enc w reads).outcome.isConnectionLost = false ∧
    connIsConnectionLost (connect_timeout tcp) = false ∧
    connect_timeout (.error e) = .error (.IOError e) ∧
    (op (.ok bytes) (.error e) reads).outcome = .err (.IOError e) ∧
    (op (.ok bytes) (.ok ()) (.error e :: reads)).outcome
      = .err (.BencodeDecodeError e) := by
  refine ⟨?_, ?_, rfl, rfl, rfl⟩
  · cases enc with
    | error d => rfl
    | ok bs =>
      cases w with
      | error d => rfl
      | ok u =>
        cases u
        have : (op (.ok bs) (.ok ()) reads).outcome = (opLoop reads []).1 := by
          simp [op, send_op]
        rw [this]
        exact opLoop_not_connectionLost reads []
  · cases tcp with
    | error d => rfl
    | ok u => rfl

end Nrepl
